import Mathlib

/-!
Verification development for the network-test repository (src/src/main.rs).

The program repeatedly pings a host on a background thread, sends each parsed
round-trip-time average over an mpsc channel, and a GUI thread drains the
channel on every redraw tick into a bounded buffer that is plotted.

Modelling conventions:
* Rust strings are modelled as Lean String / List Char; Rust byte indices
  become character-list indices (all relevant inputs are single-byte chars).
* Rust f64 values are modelled exactly: a parsed decimal literal becomes the
  rational it denotes, and the special spellings inf, infinity and nan become
  dedicated constructors.  No floating-point arithmetic is performed by the
  program on these values (they are only parsed, stored, and printed), so the
  exact-decimal model is faithful on every code path the claims touch.
* A Rust function that can panic is modelled with an explicit outcome type
  RResult that separates a returned Ok value, a returned Err value, and a
  panic; in the source every parse failure is a panic, never a returned Err.
* The mpsc channel send is modelled by a predicate giving, per attempt, whether
  the receiver is still alive (mpsc send fails exactly when the receiver was
  dropped, and stays failed afterwards).
-/

namespace NetworkTest

/-! ## Generic machinery on character lists -/

/-- Test whether the first list occurs at the very start of the second list. -/
def leadsWith : List Char → List Char → Bool
  | [], _ => true
  | _ :: _, [] => false
  | a :: as, b :: bs => a = b && leadsWith as bs

/-- Countdown search for the greatest index at most n where the needle occurs.
    This models the str rfind method of Rust (index of the last occurrence). -/
def rfindGo (needle hay : List Char) : Nat → Option Nat
  | 0 => if leadsWith needle hay then some 0 else none
  | i + 1 => if leadsWith needle (hay.drop (i + 1)) then some (i + 1) else rfindGo needle hay i

/-- Model of str rfind with a string pattern: index of the last occurrence. -/
def rfindSub (hay needle : List Char) : Option Nat :=
  rfindGo needle hay hay.length

/-- Fuelled splitter on a substring separator, mirroring the str split method
    of Rust with a string pattern: non-overlapping occurrences, scanned left to
    right; a separator at the edge produces an empty piece.  The fuel only
    serves to make the recursion structural; the wrapper supplies enough. -/
def splitFuel (sep : List Char) : Nat → List Char → List (List Char)
  | 0, l => [l]
  | fuel + 1, l =>
    match l with
    | [] => [[]]
    | c :: cs =>
      if leadsWith sep (c :: cs) then
        [] :: splitFuel sep fuel (cs.drop (sep.length - 1))
      else
        match splitFuel sep fuel cs with
        | [] => [[c]]
        | p :: ps => (c :: p) :: ps

/-- Model of the str split method of Rust with a string pattern. -/
def splitSub (sep l : List Char) : List (List Char) :=
  splitFuel sep (l.length + 1) l

/-- The piece of a list before the first occurrence of the separator
    (the whole list when the separator does not occur). -/
def firstPiece (sep : List Char) : List Char → List Char
  | [] => []
  | c :: cs => if leadsWith sep (c :: cs) then [] else c :: firstPiece sep cs

/-- Decidable check that the needle occurs nowhere strictly after position p
    in the haystack. -/
def noMatchAfter (needle hay : List Char) (p : Nat) : Bool :=
  (List.range (hay.length + 1)).all fun j => decide (j ≤ p) || !leadsWith needle (hay.drop j)

/-- Decidable check that the needle occurs nowhere in the haystack. -/
def noMatchAnywhere (needle hay : List Char) : Bool :=
  (List.range (hay.length + 1)).all fun j => !leadsWith needle (hay.drop j)

/-! ## Model of f64 parsing (str parse::<f64> of Rust)

The accepted grammar of f64 from_str is: an optional sign, then either the
case-insensitive spellings inf, infinity or nan, or a decimal number made of
an integer part and/or a fractional part (at least one digit overall, the dot
optional) followed by an optional exponent part.  Whitespace is not accepted
anywhere.  A finite value is modelled as the exact rational the decimal
literal denotes. -/

/-- Exact model of an f64 value produced by parsing: a finite value carries
    the exact rational denoted by the decimal literal. -/
inductive FVal where
  | finite (q : ℚ)
  | infVal (neg : Bool)
  | nanVal
deriving DecidableEq

/-- Value of a digit string, most significant first. -/
def decDigits (l : List Char) : ℕ := l.foldl (fun a c => 10 * a + (c.toNat - 48)) 0

/-- Parse the optional exponent part: empty input means exponent zero; else the
    letter e or E, an optional sign and a nonempty digit run consuming the rest. -/
def parseExp : List Char → Option (Bool × ℕ)
  | [] => some (false, 0)
  | c :: r =>
    if c = 'e' ∨ c = 'E' then
      let sr : Bool × List Char :=
        match r with
        | '+' :: t => (false, t)
        | '-' :: t => (true, t)
        | t => (false, t)
      let ds := sr.2.takeWhile Char.isDigit
      let rest := sr.2.dropWhile Char.isDigit
      if ds = [] ∨ rest ≠ [] then none
      else some (sr.1, decDigits ds)
    else none

/-- Parse an unsigned decimal number with optional fraction and exponent.  The
    exact value I.F x 10^e is assembled as a single normalized fraction, using
    only integer arithmetic and mkRat. -/
def parseDec (s : List Char) : Option ℚ :=
  let ip := s.takeWhile Char.isDigit
  let rest := s.dropWhile Char.isDigit
  match rest with
  | '.' :: r2 =>
    let fp := r2.takeWhile Char.isDigit
    let rest2 := r2.dropWhile Char.isDigit
    if ip = [] ∧ fp = [] then none
    else
      match parseExp rest2 with
      | some (false, k) =>
        some (mkRat ((decDigits ip * 10 ^ fp.length + decDigits fp) * 10 ^ k) (10 ^ fp.length))
      | some (true, k) =>
        some (mkRat (decDigits ip * 10 ^ fp.length + decDigits fp) (10 ^ (fp.length + k)))
      | none => none
  | _ =>
    if ip = [] then none
    else
      match parseExp rest with
      | some (false, k) => some (mkRat (decDigits ip * 10 ^ k) 1)
      | some (true, k) => some (mkRat (decDigits ip) (10 ^ k))
      | none => none

/-- Spelling of the infinity keyword. -/
def infChars : List Char := "inf".toList

/-- Long spelling of the infinity keyword. -/
def infinityChars : List Char := "infinity".toList

/-- Spelling of the nan keyword. -/
def nanChars : List Char := "nan".toList

/-- Model of str parse::<f64> of Rust on a character list. -/
def parse_f64 (s : List Char) : Option FVal :=
  let sr : Bool × List Char :=
    match s with
    | '+' :: r => (false, r)
    | '-' :: r => (true, r)
    | r => (false, r)
  let low := sr.2.map Char.toLower
  if low = infChars ∨ low = infinityChars then some (.infVal sr.1)
  else if low = nanChars then some (.nanVal)
  else
    match parseDec sr.2 with
    | some q => some (.finite (if sr.1 then -q else q))
    | none => none

/-! ## Data model and outcome types -/

/-- Mirror of struct PingResult: the parsed average and the reception time.
    Timestamps are abstract and modelled as naturals. -/
structure PingResult where
  average : FVal
  datetime_recv : ℕ
deriving DecidableEq

/-- The panic sites of the program, one constructor per panic in the source. -/
inductive PanicKind where
  | sequenceNotFound
  | statsValuesNotFound
  | malformedAverage
  | indexOutOfBounds
  | invalidUtf8
  | unwrapIoError
  | fileAlreadyExists
  | errorCreatingFile
  | errorWritingFile
  | argParseError
deriving DecidableEq

/-- Outcome of a Rust function returning Result, with the panic channel made
    explicit: ok is a returned Ok, err is a returned Err (the io error payload
    is abstract), panicked is a process-level panic. -/
inductive RResult (α : Type) where
  | ok (a : α)
  | err (e : ℕ)
  | panicked (k : PanicKind)
deriving DecidableEq

/-- Whether an outcome is a returned Err value (as opposed to Ok or a panic). -/
def RResult.isErrReturn : RResult α → Bool
  | .err _ => true
  | _ => false

/-- Whether an outcome is a returned Ok value. -/
def RResult.isOk : RResult α → Bool
  | .ok _ => true
  | _ => false

/-- The Ok payload of an outcome (arbitrary on the other constructors). -/
def RResult.getOk [Inhabited α] : RResult α → α
  | .ok a => a
  | _ => default

/-- The panic kind produced when the main loop unwraps a non-Ok outcome of
    get_ping: unwrapping a returned Err panics at the unwrap call, and a panic
    inside get_ping propagates as itself.  Arbitrary on Ok. -/
def RResult.failurePanic : RResult α → PanicKind
  | .ok _ => .sequenceNotFound
  | .err _ => .unwrapIoError
  | .panicked k => k

instance : Inhabited PingResult := ⟨⟨.nanVal, 0⟩⟩

/-! ## The parser: parse_ping (main.rs lines 55-76) -/

/-- The literal marker searched by parse_ping. -/
def marker : List Char := "min/avg/max/stddev".toList

/-- The separator between the header and the statistics values. -/
def sepEq : List Char := " = ".toList

/-- The separator between the statistics fields. -/
def slash : List Char := "/".toList

/-- Direct translation of parse_ping from main.rs (lines 55-76), on character
    lists.  Every failure path in the source is a panic, never a returned Err:
    a missing marker panics, a missing statistics segment panics, a missing
    field at index 1 is an out-of-bounds vector index panic, and a field that
    does not parse as f64 panics.  The reception timestamp (Utc::now() in the
    source) is passed as the parameter now. -/
def parse_pingL (ping_output : List Char) (now : ℕ) : RResult PingResult :=
  match rfindSub ping_output marker with
  | none => .panicked .sequenceNotFound
  | some stats_index =>
    let stats_output := ping_output.drop stats_index
    let stats_splitted := splitSub sepEq stats_output
    match stats_splitted[1]? with
    | none => .panicked .statsValuesNotFound
    | some values =>
      let stats_values := splitSub slash values
      match stats_values[1]? with
      | none => .panicked .indexOutOfBounds
      | some field =>
        match parse_f64 field with
        | some average => .ok ⟨average, now⟩
        | none => .panicked .malformedAverage

/-- String-level wrapper of parse_pingL. -/
def parse_ping (ping_output : String) (now : ℕ) : RResult PingResult :=
  parse_pingL ping_output.toList now

/-- The end-to-end example input of the specification. -/
def exampleRaw : String := "rtt min/avg/max/stddev = 10.1/15.3/20.7/2.1 ms"

example : parse_ping exampleRaw 0 = .ok ⟨.finite (mkRat 153 10), 0⟩ := by decide

/-! ## get_ping (main.rs lines 41-53)

The external ping command is a black box; its observable result is either a
returned io error (propagated by the question-mark operator as a returned Err)
or a byte output whose UTF-8 decoding either succeeds with some text or fails.
The decoding outcome is modelled abstractly, since only its success or failure
is inspected by the source. -/

/-- Outcome of from_utf8 on the probe output. -/
inductive Utf8Attempt where
  | valid (s : String)
  | invalid
deriving DecidableEq

/-- Direct translation of get_ping: a command failure is returned as Err (the
    question-mark operator), invalid UTF-8 panics, and otherwise the text is
    handed to parse_ping.  The reception timestamp is the parameter now. -/
def get_ping (output : Except ℕ Utf8Attempt) (now : ℕ) : RResult PingResult :=
  match output with
  | .error e => .err e
  | .ok .invalid => .panicked .invalidUtf8
  | .ok (.valid s) => parse_ping s now

/-! ## The sampling thread (main.rs lines 25-34)

The spawned closure runs: while i less than iterations, compute
get_ping(..).unwrap(), send it, break if the send failed, else increment i.
The loop counter i equals the attempt index, because i is incremented exactly
once per loop pass and the loop exits at the first failed send, so the passes
are numbered 0, 1, 2, ...  The remaining pass budget iterations - i is used as
structural fuel: for iterations at most 0 the while condition is false at once
and toNat gives 0.  The channel send is modelled by the predicate alive: an
mpsc send succeeds exactly while the receiver end has not been dropped. -/

/-- Outcome of the sampling thread: the list of measurements actually sent over
    the channel, and whether the thread finished (or stopped at a failed send)
    or panicked at some iteration. -/
inductive ThreadOutcome where
  | done (sent : List PingResult)
  | panicked (sent : List PingResult) (k : PanicKind)
deriving DecidableEq

/-- One pass of the sampling loop, with fuel = iterations - i and n the attempt
    index.  Unwrapping a returned Err or propagating a panic from get_ping
    kills the thread at this pass; a failed send stops it cleanly. -/
def thread_go (output : ℕ → Except ℕ Utf8Attempt) (now : ℕ → ℕ) (alive : ℕ → Bool) :
    ℕ → ℕ → ThreadOutcome
  | 0, _ => .done []
  | fuel + 1, n =>
    match get_ping (output n) (now n) with
    | .ok v =>
      if alive n then
        match thread_go output now alive fuel (n + 1) with
        | .done s => .done (v :: s)
        | .panicked s k => .panicked (v :: s) k
      else .done []
    | .err _ => .panicked [] .unwrapIoError
    | .panicked k => .panicked [] k

/-- The whole sampling thread for a run of the given iteration count. -/
def thread_loop (iterations : Int) (output : ℕ → Except ℕ Utf8Attempt) (now : ℕ → ℕ)
    (alive : ℕ → Bool) : ThreadOutcome :=
  thread_go output now alive iterations.toNat 0

/-! ## The chart surface and its bounded buffer (main.rs lines 169-227) -/

/-- Mirror of struct PingApp, without the channel handle: the buffer of
    measurements and the configured bound. -/
structure PingApp where
  ping_data : List PingResult
  max_points : ℕ
deriving DecidableEq

/-- Mirror of PingApp::new: empty buffer, max_points = 1000. -/
def PingApp.new : PingApp := ⟨[], 1000⟩

/-- Direct translation of one redraw tick of PingApp::update (lines 186-227):
    drain every waiting measurement into the buffer in arrival order, then, if
    the length exceeds max_points, remove the single element at index 0 (the
    source uses an if, so at most one element is evicted per tick), and finally
    request another repaint unconditionally (the returned Bool, always true,
    mirrors the unconditional ctx.request_repaint() on line 226). -/
def PingApp.update (app : PingApp) (incoming : List PingResult) : PingApp × Bool :=
  let drained := app.ping_data ++ incoming
  let limited := if drained.length > app.max_points then drained.eraseIdx 0 else drained
  (⟨limited, app.max_points⟩, true)

/-! ## Startup argument parsing (main.rs lines 16-19) -/

/-- Model of str parse::<i32> of Rust: an optional sign, then a nonempty digit
    run consuming the whole input, rejecting values outside the i32 range.
    Whitespace or any other character is rejected. -/
def parse_i32 (s : String) : Option Int :=
  let sr : Bool × List Char :=
    match s.toList with
    | '+' :: r => (false, r)
    | '-' :: r => (true, r)
    | r => (false, r)
  if sr.2 = [] ∨ ¬ sr.2.all Char.isDigit then none
  else
    let v : Int := if sr.1 then -(decDigits sr.2 : Int) else (decDigits sr.2 : Int)
    if v < -(2 ^ 31) ∨ 2 ^ 31 ≤ v then none else some v

/-- Model of main (lines 13-39) after the two argument strings are read: a
    malformed iteration count panics at startup; otherwise the sampling thread
    is spawned and the chart window is opened unconditionally (main always
    reaches draw_chart_realtime once the arguments parsed). -/
structure MainRun where
  thread : ThreadOutcome
  chart_opened : Bool
deriving DecidableEq

/-- The observable behavior of main for a given iteration-count argument and
    external probe behavior. -/
def main_model (iterations_arg : String) (output : ℕ → Except ℕ Utf8Attempt) (now : ℕ → ℕ)
    (alive : ℕ → Bool) : RResult MainRun :=
  match parse_i32 iterations_arg with
  | none => .panicked .argParseError
  | some iterations => .ok ⟨thread_loop iterations output now alive, true⟩

/-! ## Export (main.rs lines 78-99)

The file system interaction is condensed to the three external facts the code
branches on: whether the destination path exists, whether File::create
succeeds, and whether write_all succeeds.  The existence check happens first,
so on an existing path the function panics before anything is created or
truncated; the outcome then carries no written content. -/

/-- Outcome of export_to_csv: either a panic (with nothing written on the
    already-exists path, checked before any file operation) or the exact text
    written to the fresh file. -/
inductive ExportOutcome where
  | panicked (k : PanicKind)
  | wrote (content : String)
deriving DecidableEq

/-- Model of the to_string method of f64 (the Display rendering used to build
    the export text).  Rust prints the shortest decimal that denotes the value;
    on the exact-decimal model this is the decimal expansion with the shortest
    fraction part, with no fraction part at all for integral values.  A finite
    rational whose denominator divides no power of ten cannot arise from an
    f64, so that case falls back to a fraction spelling. -/
def f64_to_string (v : FVal) : String :=
  match v with
  | .nanVal => "NaN"
  | .infVal false => "inf"
  | .infVal true => "-inf"
  | .finite q =>
    let sign := if q.num < 0 then "-" else ""
    let n := q.num.natAbs
    let d := q.den
    match (List.range (d + 1)).find? (fun k => 10 ^ k % d = 0) with
    | none => sign ++ Nat.repr n ++ "/" ++ Nat.repr d
    | some k =>
      let m := n * (10 ^ k / d)
      let ds := (Nat.repr m).toList
      if k = 0 then sign ++ String.mk ds
      else
        let l2 := if ds.length ≤ k then List.replicate (k + 1 - ds.length) '0' ++ ds else ds
        sign ++ String.mk (l2.take (l2.length - k)) ++ "." ++ String.mk (l2.drop (l2.length - k))

/-- The separator joining the rendered values in the export text. -/
def newlineSep : String := "\n"

/-- Direct translation of export_to_csv (lines 78-99): panic if the path
    exists (before creating anything), join the rendered values with newlines,
    panic if creating or writing fails, else the file holds exactly the text. -/
def export_to_csv (pathExists createOk writeOk : Bool) (values : List FVal) : ExportOutcome :=
  if pathExists then .panicked .fileAlreadyExists
  else
    let to_write := String.intercalate newlineSep (values.map f64_to_string)
    if ¬ createOk then .panicked .errorCreatingFile
    else if ¬ writeOk then .panicked .errorWritingFile
    else .wrote to_write

/-! ## Concrete evaluation checks -/

def exNoMarker : String := "this text has no statistics header"
def exNoSlash : String := "min/avg/max/stddev = abc"
def exWhitespace : String := "rtt min/avg/max/stddev = 10.1/ 15.3 /20.7/2.1"
def exTwoMarkers : String := "min/avg/max/stddev = 1/2/3/4 noise min/avg/max/stddev = 10.1/15.3/20.7/2.1 ms"

example : parse_ping exNoMarker 0 = .panicked .sequenceNotFound := by decide
example : parse_ping exNoSlash 0 = .panicked .indexOutOfBounds := by decide
example : parse_ping exWhitespace 0 = .panicked .malformedAverage := by decide
example : parse_ping exTwoMarkers 0 = .ok ⟨.finite (mkRat 153 10), 0⟩ := by decide
example : parse_i32 "0" = some 0 := by decide
example : parse_i32 "-5" = some (-5) := by decide
example : parse_i32 "abc" = none := by decide
example : f64_to_string (.finite (mkRat 1 1)) = "1" := by decide
example : f64_to_string (.finite (mkRat 5 2)) = "2.5" := by decide
example :
    thread_loop 3 (fun _ => .ok (.valid exampleRaw)) (fun _ => 0) (fun _ => true) =
      .done [⟨.finite (mkRat 153 10), 0⟩, ⟨.finite (mkRat 153 10), 0⟩, ⟨.finite (mkRat 153 10), 0⟩] := by
  decide
example : thread_loop (-5) (fun _ => .ok (.valid exampleRaw)) (fun _ => 0) (fun _ => true) = .done [] := by
  decide

/-! ## Lemmas about the string machinery -/

theorem leadsWith_eq_true_iff (p : List Char) : ∀ l, leadsWith p l = true ↔ l.take p.length = p := by
  induction p with
  | nil => intro l; simp [leadsWith]
  | cons a as ih =>
    intro l
    cases l with
    | nil => simp [leadsWith]
    | cons b bs =>
      simp only [leadsWith, List.length_cons, List.take_succ_cons, Bool.and_eq_true,
        decide_eq_true_eq, List.cons.injEq, ih]
      constructor
      · rintro ⟨h1, h2⟩; exact ⟨h1.symm, h2⟩
      · rintro ⟨h1, h2⟩; exact ⟨h1.symm, h2⟩

theorem leadsWith_append_self (x y : List Char) : leadsWith x (x ++ y) = true := by
  rw [leadsWith_eq_true_iff]
  exact List.take_left x y

theorem leadsWith_nil_eq_false (c : Char) (cs : List Char) : leadsWith (c :: cs) [] = false := rfl

/-- An occurrence starting inside the left part of an appended list forces the
    head character of the needle to occur in that left part. -/
theorem leadsWith_drop_append_eq_false (s0 : Char) (sp x y : List Char) (hx : s0 ∉ x) :
    ∀ i, i < x.length → leadsWith (s0 :: sp) ((x ++ y).drop i) = false := by
  intro i hi
  by_contra hcon
  have h : leadsWith (s0 :: sp) ((x ++ y).drop i) = true := by
    cases hb : leadsWith (s0 :: sp) ((x ++ y).drop i) with
    | false => exact absurd hb hcon
    | true => rfl
  rw [leadsWith_eq_true_iff] at h
  have hhead : ((x ++ y).drop i).head? = some s0 := by
    cases hd : (x ++ y).drop i with
    | nil => rw [hd] at h; simp at h
    | cons u us =>
      rw [hd] at h
      simp only [List.length_cons, List.take_succ_cons, List.cons.injEq] at h
      rw [h.1]; rfl
  rw [List.head?_drop] at hhead
  rw [List.getElem?_append_left hi] at hhead
  exact hx (List.getElem?_mem hhead)

/-- A needle whose head character does not occur in the haystack occurs
    nowhere in the haystack. -/
theorem leadsWith_drop_eq_false (s0 : Char) (sp l : List Char) (hx : s0 ∉ l) :
    ∀ i, leadsWith (s0 :: sp) (l.drop i) = false := by
  intro i
  by_cases hi : i < l.length
  · have := leadsWith_drop_append_eq_false s0 sp l [] hx i hi
    rwa [List.append_nil] at this
  · rw [List.drop_eq_nil_of_le (by omega)]
    rfl

theorem rfindGo_eq_none (needle hay : List Char)
    (h : ∀ j, leadsWith needle (hay.drop j) = false) : ∀ n, rfindGo needle hay n = none := by
  intro n
  induction n with
  | zero =>
    have h0 := h 0
    rw [List.drop_zero] at h0
    simp [rfindGo, h0]
  | succ m ih =>
    simp [rfindGo, h (m + 1), ih]

theorem rfindGo_eq_some (needle hay : List Char) (p : ℕ)
    (hp : leadsWith needle (hay.drop p) = true)
    (hafter : ∀ j, p < j → leadsWith needle (hay.drop j) = false) :
    ∀ n, p ≤ n → rfindGo needle hay n = some p := by
  intro n
  induction n with
  | zero =>
    intro hn
    have hp0 : p = 0 := by omega
    subst hp0
    rw [List.drop_zero] at hp
    simp [rfindGo, hp]
  | succ m ih =>
    intro hn
    by_cases hpm : p = m + 1
    · subst hpm
      simp [rfindGo, hp]
    · have hlt : p ≤ m := by omega
      simp [rfindGo, hafter (m + 1) (by omega), ih hlt]

theorem noMatchAfter_spec (needle hay : List Char) (p : ℕ) (hne : needle ≠ [])
    (h : noMatchAfter needle hay p = true) :
    ∀ j, p < j → leadsWith needle (hay.drop j) = false := by
  intro j hj
  obtain ⟨c, cs, rfl⟩ : ∃ c cs, needle = c :: cs := by
    cases needle with
    | nil => exact absurd rfl hne
    | cons c cs => exact ⟨c, cs, rfl⟩
  by_cases hlen : j ≤ hay.length
  · have hall := List.all_eq_true.mp h j (List.mem_range.mpr (by omega))
    simp only [Bool.or_eq_true, decide_eq_true_eq, Bool.not_eq_true'] at hall
    rcases hall with h1 | h2
    · omega
    · exact h2
  · rw [List.drop_eq_nil_of_le (by omega)]
    rfl

theorem noMatchAnywhere_spec (needle hay : List Char) (hne : needle ≠ [])
    (h : noMatchAnywhere needle hay = true) :
    ∀ j, leadsWith needle (hay.drop j) = false := by
  intro j
  obtain ⟨c, cs, rfl⟩ : ∃ c cs, needle = c :: cs := by
    cases needle with
    | nil => exact absurd rfl hne
    | cons c cs => exact ⟨c, cs, rfl⟩
  by_cases hlen : j ≤ hay.length
  · have hall := List.all_eq_true.mp h j (List.mem_range.mpr (by omega))
    simpa only [Bool.not_eq_true'] using hall
  · rw [List.drop_eq_nil_of_le (by omega)]
    rfl

theorem rfindSub_eq_some (hay needle : List Char) (p : ℕ) (hne : needle ≠ [])
    (hp : leadsWith needle (hay.drop p) = true)
    (hafter : ∀ j, p < j → leadsWith needle (hay.drop j) = false) :
    rfindSub hay needle = some p := by
  have hple : p ≤ hay.length := by
    by_contra hgt
    obtain ⟨c, cs, rfl⟩ : ∃ c cs, needle = c :: cs := by
      cases needle with
      | nil => exact absurd rfl hne
      | cons c cs => exact ⟨c, cs, rfl⟩
    rw [List.drop_eq_nil_of_le (by omega)] at hp
    exact absurd hp (by simp [leadsWith_nil_eq_false])
  exact rfindGo_eq_some needle hay p hp hafter hay.length hple

theorem rfindSub_eq_none (hay needle : List Char)
    (h : ∀ j, leadsWith needle (hay.drop j) = false) : rfindSub hay needle = none :=
  rfindGo_eq_none needle hay h hay.length

/-! ## Lemmas about the splitter -/

theorem splitFuel_congr (sep : List Char) :
    ∀ f₁ f₂ l, l.length < f₁ → l.length < f₂ → splitFuel sep f₁ l = splitFuel sep f₂ l := by
  intro f₁
  induction f₁ with
  | zero => intro f₂ l h1 _; omega
  | succ g ih =>
    intro f₂ l h1 h2
    cases f₂ with
    | zero => omega
    | succ h =>
      cases l with
      | nil => rfl
      | cons c cs =>
        simp only [splitFuel]
        by_cases hl : leadsWith sep (c :: cs) = true
        · rw [if_pos hl, if_pos hl]
          have hlen : (cs.drop (sep.length - 1)).length ≤ cs.length := by
            rw [List.length_drop]; omega
          have hcs : cs.length + 1 = (c :: cs).length := rfl
          rw [ih h _ (by simp at h1 ⊢; omega) (by simp at h2 ⊢; omega)]
        · rw [if_neg hl, if_neg hl]
          rw [ih h cs (by simp at h1 ⊢; omega) (by simp at h2 ⊢; omega)]

theorem splitSub_nil (sep : List Char) : splitSub sep [] = [[]] := rfl

theorem splitSub_cons_of_lead (sep : List Char) (c : Char) (cs : List Char)
    (h : leadsWith sep (c :: cs) = true) :
    splitSub sep (c :: cs) = [] :: splitSub sep (cs.drop (sep.length - 1)) := by
  show splitFuel sep ((c :: cs).length + 1) (c :: cs) = _
  simp only [List.length_cons, splitFuel]
  rw [if_pos h]
  congr 1
  exact splitFuel_congr sep (cs.length + 1) ((cs.drop (sep.length - 1)).length + 1)
    (cs.drop (sep.length - 1)) (by rw [List.length_drop]; omega) (by omega)

theorem splitSub_cons_of_not_lead (sep : List Char) (c : Char) (cs : List Char)
    (h : leadsWith sep (c :: cs) = false) :
    splitSub sep (c :: cs) =
      match splitSub sep cs with
      | [] => [[c]]
      | p :: ps => (c :: p) :: ps := by
  show splitFuel sep ((c :: cs).length + 1) (c :: cs) = _
  simp only [List.length_cons, splitFuel]
  rw [if_neg (by simp [h])]
  rfl

theorem splitSub_shape (sep : List Char) : ∀ l, ∃ r, splitSub sep l = firstPiece sep l :: r := by
  intro l
  induction l with
  | nil => exact ⟨[], rfl⟩
  | cons c cs ih =>
    by_cases h : leadsWith sep (c :: cs) = true
    · rw [splitSub_cons_of_lead sep c cs h]
      refine ⟨splitSub sep (cs.drop (sep.length - 1)), ?_⟩
      simp [firstPiece, h]
    · have hf : leadsWith sep (c :: cs) = false := by
        cases hb : leadsWith sep (c :: cs) with
        | false => rfl
        | true => exact absurd hb h
      rw [splitSub_cons_of_not_lead sep c cs hf]
      obtain ⟨r, hr⟩ := ih
      rw [hr]
      refine ⟨r, ?_⟩
      simp [firstPiece, hf]

theorem splitSub_append_sep (sep y : List Char) (hsep : sep ≠ []) :
    ∀ x, (∀ i, i < x.length → leadsWith sep ((x ++ (sep ++ y)).drop i) = false) →
      splitSub sep (x ++ (sep ++ y)) = x :: splitSub sep y := by
  intro x
  induction x with
  | nil =>
    intro _
    obtain ⟨s0, sp, rfl⟩ : ∃ s0 sp, sep = s0 :: sp := by
      cases sep with
      | nil => exact absurd rfl hsep
      | cons s0 sp => exact ⟨s0, sp, rfl⟩
    rw [List.nil_append, List.cons_append]
    rw [splitSub_cons_of_lead _ _ _ (by rw [← List.cons_append]; exact leadsWith_append_self _ _)]
    simp only [List.length_cons, Nat.add_sub_cancel]
    rw [List.drop_left sp y]
  | cons c cs ih =>
    intro hx
    have h0 : leadsWith sep (c :: (cs ++ (sep ++ y))) = false := by
      have := hx 0 (by simp)
      rwa [List.drop_zero, List.cons_append] at this
    rw [List.cons_append, splitSub_cons_of_not_lead sep _ _ h0]
    rw [ih fun i hi => by
      have := hx (i + 1) (by simp; omega)
      rwa [List.cons_append, List.drop_succ_cons] at this]

theorem firstPiece_append (sep y : List Char) :
    ∀ x, (∀ i, i < x.length → leadsWith sep ((x ++ y).drop i) = false) →
      firstPiece sep (x ++ y) = x ++ firstPiece sep y := by
  intro x
  induction x with
  | nil => intro _; simp
  | cons c cs ih =>
    intro hx
    have h0 : leadsWith sep (c :: (cs ++ y)) = false := by
      have := hx 0 (by simp)
      rwa [List.drop_zero, List.cons_append] at this
    rw [List.cons_append]
    simp only [firstPiece, h0]
    rw [if_neg (by simp [h0])]
    rw [ih fun i hi => by
      have := hx (i + 1) (by simp; omega)
      rwa [List.cons_append, List.drop_succ_cons] at this]
    rfl

theorem firstPiece_of_no_match (sep : List Char) :
    ∀ l, (∀ i, leadsWith sep (l.drop i) = false) → firstPiece sep l = l := by
  intro l
  induction l with
  | nil => intro _; rfl
  | cons c cs ih =>
    intro h
    have h0 : leadsWith sep (c :: cs) = false := by
      have := h 0
      rwa [List.drop_zero] at this
    simp only [firstPiece]
    rw [if_neg (by simp [h0])]
    rw [ih fun i => by
      have := h (i + 1)
      rwa [List.drop_succ_cons] at this]

theorem splitSub_of_no_match (sep : List Char) :
    ∀ l, (∀ i, leadsWith sep (l.drop i) = false) → splitSub sep l = [l] := by
  intro l
  induction l with
  | nil => intro _; rfl
  | cons c cs ih =>
    intro h
    have h0 : leadsWith sep (c :: cs) = false := by
      have := h 0
      rwa [List.drop_zero] at this
    rw [splitSub_cons_of_not_lead sep c cs h0]
    rw [ih fun i => by
      have := h (i + 1)
      rwa [List.drop_succ_cons] at this]

/-! ## Decomposition of parse_ping on well-shaped inputs -/

theorem sepEq_eq : sepEq = ' ' :: ('=' :: (' ' :: [])) := by decide

theorem slash_eq : slash = '/' :: [] := by decide

theorem marker_ne_nil : marker ≠ [] := by decide

theorem space_not_mem_marker : ' ' ∉ marker := by decide

/-- Shape of any input whose last marker occurrence is followed by the
    separator and a statistics segment with at least two slash-free fields a
    and b: parse_ping finds the marker at the end of pre, isolates the segment,
    takes the field b at index 1 and feeds it to the float parser; the result
    is entirely decided by parse_f64 on b.  The fields a and b must be free of
    slashes (they are fields) and of spaces (so that neither the field split
    nor the separator split can fire inside them), and no further marker
    occurrence may start after pre. -/
theorem parse_pingL_decomp (pre a b suf : List Char) (now : ℕ)
    (ha1 : ' ' ∉ a) (ha2 : '/' ∉ a) (hb1 : ' ' ∉ b) (hb2 : '/' ∉ b)
    (hafter : ∀ j, pre.length < j →
        leadsWith marker ((pre ++ (marker ++ (sepEq ++ (a ++ (slash ++ (b ++ (slash ++ suf))))))).drop j)
          = false) :
    parse_pingL (pre ++ (marker ++ (sepEq ++ (a ++ (slash ++ (b ++ (slash ++ suf))))))) now =
      match parse_f64 b with
      | some average => RResult.ok ⟨average, now⟩
      | none => RResult.panicked .malformedAverage := by
  set tail2 := a ++ (slash ++ (b ++ (slash ++ suf))) with htail2
  set raw := pre ++ (marker ++ (sepEq ++ tail2)) with hraw
  have hdrop : raw.drop pre.length = marker ++ (sepEq ++ tail2) := List.drop_left pre _
  have hfind : rfindSub raw marker = some pre.length := by
    refine rfindSub_eq_some raw marker pre.length marker_ne_nil ?_ ?_
    · rw [hdrop]; exact leadsWith_append_self marker _
    · exact hafter
  have hsplit1 : splitSub sepEq (marker ++ (sepEq ++ tail2)) = marker :: splitSub sepEq tail2 := by
    refine splitSub_append_sep sepEq tail2 (by decide) marker ?_
    intro i hi
    rw [sepEq_eq]
    exact leadsWith_drop_append_eq_false ' ' _ marker _ space_not_mem_marker i hi
  have hassoc : tail2 = (a ++ (slash ++ (b ++ slash))) ++ suf := by
    simp [htail2, List.append_assoc]
  have hfp : firstPiece sepEq tail2 = (a ++ (slash ++ (b ++ slash))) ++ firstPiece sepEq suf := by
    rw [hassoc]
    refine firstPiece_append sepEq suf _ ?_
    intro i hi
    rw [sepEq_eq]
    refine leadsWith_drop_append_eq_false ' ' _ _ suf ?_ i hi
    simp [slash_eq, ha1, hb1]
  have hvalassoc : (a ++ (slash ++ (b ++ slash))) ++ firstPiece sepEq suf =
      a ++ (slash ++ (b ++ (slash ++ firstPiece sepEq suf))) := by
    simp [List.append_assoc]
  have hsplit2 : splitSub slash (a ++ (slash ++ (b ++ (slash ++ firstPiece sepEq suf)))) =
      a :: splitSub slash (b ++ (slash ++ firstPiece sepEq suf)) := by
    refine splitSub_append_sep slash _ (by decide) a ?_
    intro i hi
    rw [slash_eq]
    exact leadsWith_drop_append_eq_false '/' _ a _ ha2 i hi
  have hsplit3 : splitSub slash (b ++ (slash ++ firstPiece sepEq suf)) =
      b :: splitSub slash (firstPiece sepEq suf) := by
    refine splitSub_append_sep slash _ (by decide) b ?_
    intro i hi
    rw [slash_eq]
    exact leadsWith_drop_append_eq_false '/' _ b _ hb2 i hi
  obtain ⟨r, hr⟩ := splitSub_shape sepEq tail2
  unfold parse_pingL
  rw [hfind]
  simp only
  rw [hdrop, hsplit1]
  simp only [List.getElem?_cons_succ, List.getElem?_cons_zero]
  rw [hr]
  simp only [List.getElem?_cons_zero]
  rw [hfp, hvalassoc, hsplit2, hsplit3]
  simp only [List.getElem?_cons_succ, List.getElem?_cons_zero]

/-- Shape of an input whose statistics segment has no slash at all: the index-1
    access into the field vector is out of bounds and panics. -/
theorem parse_pingL_decomp_nofield (pre a : List Char) (now : ℕ)
    (ha1 : ' ' ∉ a) (ha2 : '/' ∉ a)
    (hafter : ∀ j, pre.length < j →
        leadsWith marker ((pre ++ (marker ++ (sepEq ++ a))).drop j) = false) :
    parse_pingL (pre ++ (marker ++ (sepEq ++ a))) now = .panicked .indexOutOfBounds := by
  set raw := pre ++ (marker ++ (sepEq ++ a)) with hraw
  have hdrop : raw.drop pre.length = marker ++ (sepEq ++ a) := List.drop_left pre _
  have hfind : rfindSub raw marker = some pre.length := by
    refine rfindSub_eq_some raw marker pre.length marker_ne_nil ?_ ?_
    · rw [hdrop]; exact leadsWith_append_self marker _
    · exact hafter
  have hsplit1 : splitSub sepEq (marker ++ (sepEq ++ a)) = marker :: splitSub sepEq a := by
    refine splitSub_append_sep sepEq a (by decide) marker ?_
    intro i hi
    rw [sepEq_eq]
    exact leadsWith_drop_append_eq_false ' ' _ marker _ space_not_mem_marker i hi
  have hfp : firstPiece sepEq a = a := by
    refine firstPiece_of_no_match sepEq a ?_
    intro i
    rw [sepEq_eq]
    exact leadsWith_drop_eq_false ' ' _ a ha1 i
  have hsplit2 : splitSub slash a = [a] := by
    refine splitSub_of_no_match slash a ?_
    intro i
    rw [slash_eq]
    exact leadsWith_drop_eq_false '/' _ a ha2 i
  obtain ⟨r, hr⟩ := splitSub_shape sepEq a
  unfold parse_pingL
  rw [hfind]
  simp only
  rw [hdrop, hsplit1]
  simp only [List.getElem?_cons_succ, List.getElem?_cons_zero]
  rw [hr]
  simp only [List.getElem?_cons_zero]
  rw [hfp, hsplit2]
  rfl

/-! ## Lemmas about the sampling thread -/

theorem RResult.eq_ok_of_isOk [Inhabited α] (r : RResult α) (h : r.isOk = true) :
    r = .ok r.getOk := by
  cases r with
  | ok a => rfl
  | err e => simp [RResult.isOk] at h
  | panicked k => simp [RResult.isOk] at h

theorem thread_go_all_ok (output : ℕ → Except ℕ Utf8Attempt) (now : ℕ → ℕ) (alive : ℕ → Bool)
    (hok : ∀ k, (get_ping (output k) (now k)).isOk = true)
    (ha : ∀ k, alive k = true) :
    ∀ fuel n, thread_go output now alive fuel n =
      .done ((List.range' n fuel).map fun k => (get_ping (output k) (now k)).getOk) := by
  intro fuel
  induction fuel with
  | zero => intro n; rfl
  | succ f ih =>
    intro n
    simp only [thread_go]
    rw [RResult.eq_ok_of_isOk _ (hok n), ha n]
    simp only [if_true]
    rw [ih (n + 1)]
    rw [List.range'_succ n f 1]
    rfl

theorem thread_go_cutoff (output : ℕ → Except ℕ Utf8Attempt) (now : ℕ → ℕ) (d : ℕ)
    (hok : ∀ k, (get_ping (output k) (now k)).isOk = true) :
    ∀ fuel n, thread_go output now (fun k => decide (k < d)) fuel n =
      .done ((List.range' n (min fuel (d - n))).map fun k => (get_ping (output k) (now k)).getOk) := by
  intro fuel
  induction fuel with
  | zero => intro n; simp [thread_go]
  | succ f ih =>
    intro n
    simp only [thread_go]
    rw [RResult.eq_ok_of_isOk _ (hok n)]
    by_cases hnd : n < d
    · have hd : decide (n < d) = true := by simp [hnd]
      simp only [hd, if_true]
      rw [ih (n + 1)]
      have hmin : min (f + 1) (d - n) = min f (d - (n + 1)) + 1 := by omega
      rw [hmin, List.range'_succ n _ 1]
      rfl
    · have hd : decide (n < d) = false := by simp [hnd]
      simp only [hd, Bool.false_eq_true, if_false]
      have hmin : min (f + 1) (d - n) = 0 := by omega
      rw [hmin]
      rfl

theorem thread_go_failure (output : ℕ → Except ℕ Utf8Attempt) (now : ℕ → ℕ) (alive : ℕ → Bool)
    (f0 : ℕ)
    (hok : ∀ k, k < f0 → (get_ping (output k) (now k)).isOk = true)
    (hf : (get_ping (output f0) (now f0)).isOk = false)
    (ha : ∀ k, k < f0 → alive k = true) :
    ∀ fuel n, f0 < n + fuel → n ≤ f0 →
      thread_go output now alive fuel n =
        .panicked ((List.range' n (f0 - n)).map fun k => (get_ping (output k) (now k)).getOk)
          ((get_ping (output f0) (now f0)).failurePanic) := by
  intro fuel
  induction fuel with
  | zero => intro n h1 h2; omega
  | succ fl ih =>
    intro n h1 h2
    by_cases hnf : n = f0
    · subst hnf
      simp only [thread_go, Nat.sub_self]
      cases hcase : get_ping (output n) (now n) with
      | ok v => rw [hcase] at hf; simp [RResult.isOk] at hf
      | err e => simp [RResult.failurePanic]
      | panicked k => simp [RResult.failurePanic]
    · have hlt : n < f0 := by omega
      simp only [thread_go]
      rw [RResult.eq_ok_of_isOk _ (hok n hlt), ha n hlt]
      simp only [if_true]
      rw [ih (n + 1) (by omega) (by omega)]
      have hsub : f0 - n = (f0 - (n + 1)) + 1 := by omega
      rw [hsub, List.range'_succ n _ 1]
      rfl

/-! ## Named concrete inputs used by the claim theorems -/

def argZero : String := "0"
def argNegFive : String := "-5"
def wsField : String := " 15.3 "
def abcField : String := "abc"
def badField : String := "x2y"
def preRtt : String := "rtt "
def fieldTen : String := "10.1"
def fieldAvg : String := "15.3"
def sufTail : String := "20.7/2.1 ms"
def midNoise : String := " = 1/2/3/4 noise "
def exportValues : List FVal := [.finite (mkRat 1 1), .finite (mkRat 5 2)]
def exportContent : String := "1\n2.5"
def burstPoint : PingResult := ⟨.finite (mkRat 1 1), 0⟩

/-! ## Claim theorems -/

set_option maxRecDepth 8000 in
/-- Claim C1 (code bug): the buffer eviction uses an if, not a loop, so a
    single redraw tick that drains more than one measurement into a full
    buffer leaves the buffer above max_points.  Evaluated at the failing
    input: 1002 measurements drained in one tick with max_points = 1000 leave
    1001 elements, violating the documented invariant length at most 1000. -/
theorem buffer_burst_single_eviction :
    PingApp.new.max_points = 1000 ∧
    (PingApp.update PingApp.new (List.replicate 1002 burstPoint)).1.ping_data.length = 1001 ∧
    1000 < 1001 := by
  decide

/-- Claim C2: for every raw probe text whose last marker occurrence is
    followed by the separator and a slash-separated statistics segment with
    fields a and b, parse succeeds and the measurement value is b parsed as a
    float, whatever unrelated text precedes the marker; on the end-to-end
    example input the value is 15.3. -/
theorem parse_extracts_average_field (pre a b suf : List Char) (now : ℕ) (q : FVal)
    (ha1 : ' ' ∉ a) (ha2 : '/' ∉ a) (hb1 : ' ' ∉ b) (hb2 : '/' ∉ b)
    (hq : parse_f64 b = some q)
    (hafter : noMatchAfter marker
        (pre ++ (marker ++ (sepEq ++ (a ++ (slash ++ (b ++ (slash ++ suf))))))) pre.length = true) :
    parse_pingL (pre ++ (marker ++ (sepEq ++ (a ++ (slash ++ (b ++ (slash ++ suf))))))) now =
        .ok ⟨q, now⟩ ∧
    parse_ping exampleRaw now = .ok ⟨.finite (mkRat 153 10), now⟩ := by
  constructor
  · rw [parse_pingL_decomp pre a b suf now ha1 ha2 hb1 hb2
      (noMatchAfter_spec marker _ pre.length marker_ne_nil hafter)]
    rw [hq]
  · rfl

theorem parse_extracts_average_field_witness :
    parse_pingL (preRtt.toList ++ (marker ++ (sepEq ++ (fieldTen.toList ++
        (slash ++ (fieldAvg.toList ++ (slash ++ sufTail.toList))))))) 0 =
      .ok ⟨.finite (mkRat 153 10), 0⟩ ∧
    parse_ping exampleRaw 0 = .ok ⟨.finite (mkRat 153 10), 0⟩ :=
  parse_extracts_average_field preRtt.toList fieldTen.toList fieldAvg.toList sufTail.toList 0
    (.finite (mkRat 153 10)) (by decide) (by decide) (by decide) (by decide) (by decide) (by decide)

/-- Claim C3: when every probe-and-parse cycle succeeds the sampling loop
    sends exactly the iteration count of measurements (the loop terminates,
    no panic), and with a consumer that disconnects before attempt d the loop
    stops cleanly at the first failed send: exactly min(count, d) measurements
    are ever sent, none after the disconnect. -/
theorem sampling_loop_send_count (iterations : Int) (output : ℕ → Except ℕ Utf8Attempt)
    (now : ℕ → ℕ) (d : ℕ) (h0 : 0 ≤ iterations)
    (hok : ∀ k, (get_ping (output k) (now k)).isOk = true) :
    thread_loop iterations output now (fun _ => true) =
      .done ((List.range' 0 iterations.toNat).map fun k => (get_ping (output k) (now k)).getOk) ∧
    (((List.range' 0 iterations.toNat).map fun k => (get_ping (output k) (now k)).getOk).length : Int)
        = iterations ∧
    thread_loop iterations output now (fun k => decide (k < d)) =
      .done ((List.range' 0 (min iterations.toNat d)).map
        fun k => (get_ping (output k) (now k)).getOk) := by
  refine ⟨?_, ?_, ?_⟩
  · exact thread_go_all_ok output now _ hok (fun _ => rfl) iterations.toNat 0
  · rw [List.length_map, List.length_range']
    exact Int.toNat_of_nonneg h0
  · have h := thread_go_cutoff output now d hok iterations.toNat 0
    simpa using h

theorem sampling_loop_send_count_witness :
    thread_loop 3 (fun _ => Except.ok (Utf8Attempt.valid exampleRaw)) (fun _ => 0)
        (fun _ => true) =
      .done [⟨.finite (mkRat 153 10), 0⟩, ⟨.finite (mkRat 153 10), 0⟩,
        ⟨.finite (mkRat 153 10), 0⟩] ∧
    thread_loop 3 (fun _ => Except.ok (Utf8Attempt.valid exampleRaw)) (fun _ => 0)
        (fun k => decide (k < 2)) =
      .done [⟨.finite (mkRat 153 10), 0⟩, ⟨.finite (mkRat 153 10), 0⟩] := by
  have h := sampling_loop_send_count 3 (fun _ => Except.ok (Utf8Attempt.valid exampleRaw))
    (fun _ => 0) 2 (by decide)
    (fun _ => show (get_ping (Except.ok (Utf8Attempt.valid exampleRaw)) 0).isOk = true by decide)
  refine ⟨?_, ?_⟩
  · rw [h.1]; decide
  · rw [h.2.2]; decide

/-- Claim C4 (corrected): on input without the marker, parse does fail, but by
    panicking with the message Sequence not found, a process-aborting panic,
    not by returning an error value. -/
theorem marker_absent_panics (s : String) (now : ℕ)
    (h : noMatchAnywhere marker s.toList = true) :
    parse_ping s now = .panicked .sequenceNotFound ∧
    (parse_ping s now).isErrReturn = false := by
  have hnone : rfindSub s.toList marker = none :=
    rfindSub_eq_none _ _ (noMatchAnywhere_spec marker s.toList marker_ne_nil h)
  unfold parse_ping parse_pingL
  rw [hnone]
  exact ⟨rfl, rfl⟩

theorem marker_absent_panics_witness :
    parse_ping exNoMarker 0 = .panicked .sequenceNotFound ∧
    (parse_ping exNoMarker 0).isErrReturn = false :=
  marker_absent_panics exNoMarker 0 (by decide)

/-- Claim C4 counterexample: at a concrete marker-free input the outcome is a
    panic, not a returned parse error, refuting the a-returned-parse-error
    reading of the claim. -/
theorem marker_absent_not_returned_error_cex :
    parse_ping exNoMarker 0 = .panicked .sequenceNotFound ∧
    (parse_ping exNoMarker 0).isErrReturn = false ∧
    (parse_ping exNoMarker 0).isOk = false := by decide

/-- Claim C5 (corrected): when the statistics segment has no field at index 1
    the index access itself faults (an out-of-bounds vector index panic), and
    only a present but non-numeric field reaches the float parse and panics at
    the parse call; neither failure is a returned error value. -/
theorem field_one_failure_modes :
    (∀ pre a now, ' ' ∉ a → '/' ∉ a →
      noMatchAfter marker (pre ++ (marker ++ (sepEq ++ a))) pre.length = true →
      parse_pingL (pre ++ (marker ++ (sepEq ++ a))) now = .panicked .indexOutOfBounds) ∧
    (∀ pre a b suf now, ' ' ∉ a → '/' ∉ a → ' ' ∉ b → '/' ∉ b → parse_f64 b = none →
      noMatchAfter marker
          (pre ++ (marker ++ (sepEq ++ (a ++ (slash ++ (b ++ (slash ++ suf))))))) pre.length
        = true →
      parse_pingL (pre ++ (marker ++ (sepEq ++ (a ++ (slash ++ (b ++ (slash ++ suf))))))) now =
        .panicked .malformedAverage) ∧
    parse_ping exNoSlash 0 = .panicked .indexOutOfBounds := by
  refine ⟨?_, ?_, by decide⟩
  · intro pre a now ha1 ha2 hafter
    exact parse_pingL_decomp_nofield pre a now ha1 ha2
      (noMatchAfter_spec marker _ pre.length marker_ne_nil hafter)
  · intro pre a b suf now ha1 ha2 hb1 hb2 hb hafter
    rw [parse_pingL_decomp pre a b suf now ha1 ha2 hb1 hb2
      (noMatchAfter_spec marker _ pre.length marker_ne_nil hafter)]
    rw [hb]

theorem field_one_failure_modes_witness :
    parse_pingL (([] : List Char) ++ (marker ++ (sepEq ++ abcField.toList))) 0 =
      .panicked .indexOutOfBounds ∧
    parse_pingL (([] : List Char) ++ (marker ++ (sepEq ++ (fieldTen.toList ++
        (slash ++ (badField.toList ++ (slash ++ ([] : List Char)))))))) 0 =
      .panicked .malformedAverage :=
  ⟨field_one_failure_modes.1 [] abcField.toList 0 (by decide) (by decide) (by decide),
   field_one_failure_modes.2.1 [] fieldTen.toList badField.toList [] 0 (by decide) (by decide)
     (by decide) (by decide) (by decide) (by decide)⟩

/-- Claim C5 counterexample: a segment with no slash panics from the
    out-of-bounds index access, not with the malformed-number failure the
    claim promises, so the index-1 access does fault. -/
theorem missing_field_faults_index_cex :
    parse_ping exNoSlash 0 = .panicked .indexOutOfBounds ∧
    parse_ping exNoSlash 0 ≠ .panicked .malformedAverage ∧
    (parse_ping exNoSlash 0).isErrReturn = false := by decide

/-- Claim C6 (corrected): the numeric parse of Rust rejects surrounding
    whitespace, so a whitespace-padded average field makes parse fail with the
    malformed-average panic instead of succeeding: any field starting with a
    space fails to parse, the concrete padded field fails, and the end-to-end
    input with a padded field panics. -/
theorem whitespace_field_rejected :
    (∀ t : List Char, parse_f64 (' ' :: t) = none) ∧
    parse_f64 wsField.toList = none ∧
    parse_ping exWhitespace 0 = .panicked .malformedAverage := by
  refine ⟨?_, by decide, by decide⟩
  intro t
  rfl

/-- Claim C6 counterexample: on the whitespace-padded example input parse does
    not succeed with value 15.3; it panics at the number parse. -/
theorem whitespace_field_fails_cex :
    parse_ping exWhitespace 0 = .panicked .malformedAverage ∧
    (parse_ping exWhitespace 0).isOk = false := by decide

/-- Claim C7: only the rightmost marker occurrence is used: the result equals
    the result on the text starting at the last marker (earlier occurrences
    have no effect), the value comes from the field after the last marker, and
    the concrete two-marker input parses to 15.3. -/
theorem last_marker_occurrence_wins (pre mid a b suf : List Char) (now : ℕ) (q : FVal)
    (ha1 : ' ' ∉ a) (ha2 : '/' ∉ a) (hb1 : ' ' ∉ b) (hb2 : '/' ∉ b)
    (hq : parse_f64 b = some q)
    (hafter : noMatchAfter marker
        ((pre ++ (marker ++ mid)) ++ (marker ++ (sepEq ++ (a ++ (slash ++ (b ++ (slash ++ suf)))))))
        (pre ++ (marker ++ mid)).length = true) :
    parse_pingL ((pre ++ (marker ++ mid)) ++
        (marker ++ (sepEq ++ (a ++ (slash ++ (b ++ (slash ++ suf))))))) now = .ok ⟨q, now⟩ ∧
    parse_pingL ((pre ++ (marker ++ mid)) ++
        (marker ++ (sepEq ++ (a ++ (slash ++ (b ++ (slash ++ suf))))))) now =
      parse_pingL (marker ++ (sepEq ++ (a ++ (slash ++ (b ++ (slash ++ suf)))))) now ∧
    parse_ping exTwoMarkers now = .ok ⟨.finite (mkRat 153 10), now⟩ := by
  have hafterP := noMatchAfter_spec marker _ (pre ++ (marker ++ mid)).length marker_ne_nil hafter
  have h1 := parse_pingL_decomp (pre ++ (marker ++ mid)) a b suf now ha1 ha2 hb1 hb2 hafterP
  have hdrop : ((pre ++ (marker ++ mid)) ++
      (marker ++ (sepEq ++ (a ++ (slash ++ (b ++ (slash ++ suf))))))).drop
        (pre ++ (marker ++ mid)).length =
      marker ++ (sepEq ++ (a ++ (slash ++ (b ++ (slash ++ suf))))) :=
    List.drop_left _ _
  have hafter0 : ∀ j, (0 : ℕ) < j →
      leadsWith marker ((marker ++ (sepEq ++ (a ++ (slash ++ (b ++ (slash ++ suf)))))).drop j)
        = false := by
    intro j hj
    rw [← hdrop, List.drop_drop]
    exact hafterP ((pre ++ (marker ++ mid)).length + j) (by omega)
  have h2 := parse_pingL_decomp [] a b suf now ha1 ha2 hb1 hb2 (by
    intro j hj
    rw [List.nil_append]
    exact hafter0 j (by simpa using hj))
  rw [List.nil_append] at h2
  refine ⟨?_, ?_, ?_⟩
  · rw [h1, hq]
  · rw [h1, h2]
  · rfl

theorem last_marker_occurrence_wins_witness :
    parse_pingL ((([] : List Char) ++ (marker ++ midNoise.toList)) ++
        (marker ++ (sepEq ++ (fieldTen.toList ++
          (slash ++ (fieldAvg.toList ++ (slash ++ sufTail.toList))))))) 0 =
      .ok ⟨.finite (mkRat 153 10), 0⟩ ∧
    parse_ping exTwoMarkers 0 = .ok ⟨.finite (mkRat 153 10), 0⟩ := by
  have h := last_marker_occurrence_wins [] midNoise.toList fieldTen.toList fieldAvg.toList
    sufTail.toList 0 (.finite (mkRat 153 10)) (by decide) (by decide) (by decide) (by decide)
    (by decide) (by decide)
  exact ⟨h.1, h.2.2⟩

/-- Claim C8 (corrected): a probe failure, invalid UTF-8 output or parse
    failure panics the sampling thread at that iteration: the already-sent
    measurements are all that is ever sent and no further iterations run; but
    the panic lives in the spawned thread, and the display update keeps
    requesting repaints no matter what, so the chart side of the process keeps
    running rather than the whole program terminating. -/
theorem probe_failure_kills_thread_not_display (iterations : Int)
    (output : ℕ → Except ℕ Utf8Attempt) (now : ℕ → ℕ) (f0 : ℕ)
    (hok : ∀ k, k < f0 → (get_ping (output k) (now k)).isOk = true)
    (hf : (get_ping (output f0) (now f0)).isOk = false)
    (hlt : (f0 : Int) < iterations) :
    thread_loop iterations output now (fun _ => true) =
      .panicked ((List.range' 0 f0).map fun k => (get_ping (output k) (now k)).getOk)
        ((get_ping (output f0) (now f0)).failurePanic) ∧
    ∀ app incoming, (PingApp.update app incoming).2 = true := by
  constructor
  · have hfuel : f0 < 0 + iterations.toNat := by omega
    have h := thread_go_failure output now _ f0 hok hf (fun _ _ => rfl) iterations.toNat 0 hfuel
      (by omega)
    simpa using h
  · intro app incoming
    rfl

theorem probe_failure_kills_thread_not_display_witness :
    thread_loop 5 (fun _ => Except.error 0) (fun _ => 0) (fun _ => true) =
      .panicked [] .unwrapIoError ∧
    ∀ app incoming, (PingApp.update app incoming).2 = true := by
  have h := probe_failure_kills_thread_not_display 5 (fun _ => Except.error 0) (fun _ => 0) 0
    (fun k hk => absurd hk (Nat.not_lt_zero k)) (by decide) (by decide)
  refine ⟨?_, h.2⟩
  have h1 := h.1
  simpa using h1

/-- Claim C8 counterexample: with the very first probe invocation failing, the
    sampling thread panics having sent nothing, yet the display tick still
    completes and requests the next repaint: in the model the program does not
    terminate as a whole, only the sampling thread dies. -/
theorem thread_panic_keeps_display_alive_cex :
    thread_loop 5 (fun _ => Except.error 0) (fun _ => 0) (fun _ => true) =
      .panicked [] .unwrapIoError ∧
    (PingApp.update PingApp.new []).2 = true ∧
    (PingApp.update PingApp.new []).1.ping_data = [] := by decide

/-- Claim C9: export to an existing path refuses to write, panicking with the
    already-exists conflict before anything is created or truncated; export of
    the example values to a fresh path writes exactly the newline-separated
    decimal text; and on a fresh path the written text is always the rendered
    values joined by newlines. -/
theorem export_refuses_existing_writes_fresh :
    (∀ createOk writeOk values,
      export_to_csv true createOk writeOk values = .panicked .fileAlreadyExists) ∧
    export_to_csv false true true exportValues = .wrote exportContent ∧
    (∀ values, export_to_csv false true true values =
      .wrote (String.intercalate newlineSep (values.map f64_to_string))) := by
  refine ⟨fun _ _ _ => rfl, by decide, fun _ => rfl⟩

/-- Claim C10: a non-positive iteration-count argument parses successfully at
    startup (no validation), the sampling loop then sends zero measurements,
    and main still opens the chart window, which never receives data. -/
theorem nonpositive_iterations_accepted_silently (output : ℕ → Except ℕ Utf8Attempt)
    (now : ℕ → ℕ) (alive : ℕ → Bool) (iterations : Int) (hle : iterations ≤ 0) :
    parse_i32 argZero = some 0 ∧
    parse_i32 argNegFive = some (-5) ∧
    thread_loop iterations output now alive = .done [] ∧
    main_model argZero output now alive = .ok ⟨.done [], true⟩ ∧
    main_model argNegFive output now alive = .ok ⟨.done [], true⟩ := by
  refine ⟨by decide, by decide, ?_, ?_, ?_⟩
  · unfold thread_loop
    have h : iterations.toNat = 0 := by omega
    rw [h]
    rfl
  · rfl
  · rfl

theorem nonpositive_iterations_accepted_silently_witness :
    parse_i32 argZero = some 0 ∧
    parse_i32 argNegFive = some (-5) ∧
    thread_loop (-5) (fun _ => Except.error 0) (fun _ => 0) (fun _ => true) = .done [] ∧
    main_model argZero (fun _ => Except.error 0) (fun _ => 0) (fun _ => true) =
      .ok ⟨.done [], true⟩ ∧
    main_model argNegFive (fun _ => Except.error 0) (fun _ => 0) (fun _ => true) =
      .ok ⟨.done [], true⟩ :=
  nonpositive_iterations_accepted_silently (fun _ => Except.error 0) (fun _ => 0) (fun _ => true)
    (-5) (by decide)

end NetworkTest
